import Mathlib

/-!
# Verification of the Credit-Card-Analysis pipeline

Shallow embedding of the three scripts `extract_pdf_data.py`,
`clean_analysis.py` and `saas_analysis.py`.  Descriptions, dates and
keywords are modelled as `List Char` (Python `str`); Python's substring
operator `in` is `containsSub`; monetary amounts are modelled as exact
rationals `ℚ` (the scripts use Python floats; none of the verified
properties depends on rounding).  The regex engine (`re.findall`) and the
PDF libraries are abstracted: `parse_transactions` is parameterised over
the per-pattern match lists the engine would return, and the `main`
control flow over the texts the PDF libraries would return.
-/

namespace CreditCard

/- Lean 4.14 ships `Rat.add`, `Rat.mul`, `Rat.sub` and `Rat.inv` as
`irreducible`, which blocks `decide` on concrete rational arithmetic; the
witness theorems below evaluate the pipeline on concrete inputs, so make
them reducible for this file. -/
attribute [local semireducible] Rat.add Rat.mul Rat.sub Rat.inv

/-- Python `str.__contains__`: `kw in s` — `kw` occurs as a contiguous
substring of `s` (the empty keyword is contained in every string). -/
def containsSub (s kw : List Char) : Bool :=
  kw.isPrefixOf s ||
    match s with
    | [] => false
    | _ :: t => containsSub t kw

/-- Python whitespace characters stripped by `str.strip()`. -/
def isPySpace (c : Char) : Bool :=
  c = ' ' || c = '\t' || c = '\n' || c = '\r' ||
    c = Char.ofNat 11 || c = Char.ofNat 12

/-- Python `str.strip()`: drop leading and trailing whitespace. -/
def pyStrip (s : List Char) : List Char :=
  ((s.dropWhile isPySpace).reverse.dropWhile isPySpace).reverse

/-- Python `str.upper()` (ASCII letters; the keywords compared against the
result are all ASCII). -/
def pyUpper (s : List Char) : List Char :=
  s.map Char.toUpper

/-- A transaction record as built by `parse_transactions`
(`extract_pdf_data.py` lines 168-172): the dict
`{'date': ..., 'description': ..., 'amount': ...}`. -/
structure Trans where
  date : List Char
  descr : List Char
  amount : ℚ
  deriving DecidableEq, Repr

/-- The `(t['date'], t['description'], t['amount'])` key used by the
duplicate-removal loop of `parse_transactions` (lines 180-188). -/
def Trans.key (t : Trans) : List Char × List Char × ℚ :=
  (t.date, t.descr, t.amount)

/-- First-occurrence deduplication keyed by `key`: the loop
`if key not in seen: seen.add(key); unique.append(t)` of
`parse_transactions`, and `drop_duplicates(..., keep='first')` of
`clean_transactions`. -/
def dedupBy {α β : Type} [DecidableEq β] (key : α → β) :
    List β → List α → List α
  | _, [] => []
  | seen, t :: ts =>
    if key t ∈ seen then dedupBy key seen ts
    else t :: dedupBy key (key t :: seen) ts

/-! ## Transaction parsing (`parse_transactions`, lines 125-190) -/

/-- The cleanup `re.sub(r'[^\d,.]', '', amount_str)`: keep only digits,
commas and dots. -/
def cleanAmount (s : List Char) : List Char :=
  s.filter (fun c => c.isDigit || c = ',' || c = '.')

/-- `amount_str.replace(',', '')`. -/
def removeCommas (s : List Char) : List Char :=
  s.filter (fun c => c ≠ ',')

/-- Numeric value of a digit string. -/
def digitsVal (s : List Char) : ℕ :=
  s.foldl (fun n c => 10 * n + (c.toNat - 48)) 0

/-- Python `float(s)` restricted to the strings reachable here (after
`cleanAmount` and `removeCommas` the argument holds only digits and dots):
it succeeds iff there is at least one digit and at most one dot, exactly as
`float` does on such strings, and `none` models the `ValueError` caught at
line 176.  Inputs containing other characters (unreachable in the script)
are conservatively sent to `none`. -/
def parseFloat (s : List Char) : Option ℚ :=
  if s.all (fun c => c.isDigit || c = '.') &&
      s.any (fun c => c.isDigit) && s.count '.' ≤ 1 then
    let intPart := s.takeWhile (fun c => c ≠ '.')
    let fracPart := (s.dropWhile (fun c => c ≠ '.')).drop 1
    some ((digitsVal intPart : ℚ) +
      (digitsVal fracPart : ℚ) / (10 : ℚ) ^ fracPart.length)
  else
    none

/-- The body of the inner match loop (lines 156-178): a regex match is a
tuple of groups; with at least 3 groups, the date is group 0, the
description the second-to-last group and the amount the last group; the
amount string is cleaned and coerced to a float, and any failure
(`ValueError`/`IndexError`, or an empty cleaned amount) yields no
transaction. -/
def processMatch (m : List (List Char)) : Option Trans :=
  if 3 ≤ m.length then
    let date := m.getD 0 []
    let descr := pyStrip (m.getD (m.length - 2) [])
    let amountRaw := pyStrip (m.getD (m.length - 1) [])
    let cleaned := cleanAmount amountRaw
    if cleaned.isEmpty then none
    else
      match parseFloat (removeCommas cleaned) with
      | some a => some ⟨date, descr, a⟩
      | none => none
  else none

/-- The accumulation of transactions over the matches of one pattern
(the `for match in matches` loop with `transactions.append`). -/
def parseLoop (acc : List Trans) : List (List (List Char)) → List Trans
  | [] => acc
  | m :: ms =>
    match processMatch m with
    | some t => parseLoop (acc ++ [t]) ms
    | none => parseLoop acc ms

/-- `parse_transactions`, parameterised over the regex engine: `matchLists`
holds, in pattern order, the list `re.findall(pattern, text, ...)` for each
of the six patterns.  All patterns contribute matches to one list, which is
then deduplicated by `(date, description, amount)` keeping first
occurrences. -/
def parse_transactions (matchLists : List (List (List (List Char)))) :
    List Trans :=
  dedupBy Trans.key [] (matchLists.foldl parseLoop [])

/-! ## Categorization (`categorize_transactions`, `extract_pdf_data.py`
lines 192-225, and `improve_categorization`, `clean_analysis.py`
lines 36-95) -/

/-- A categorization table: the insertion-ordered dict
`categories = {category: [keyword, ...], ...}`.  Both scripts end the
table with an `'Other': []` entry. -/
abbrev CatTable := List (String × List (List Char))

/-- The nested categorization loop shared by `categorize_transactions` and
`improve_categorization`: walk the categories in mapping order, skip the
`'Other'` entry, assign the first category one of whose keywords occurs in
the description, and fall back to `'Other'`. -/
def firstMatchCategory : CatTable → List Char → String
  | [], _ => "Other"
  | (c, kws) :: rest, d =>
    if c = "Other" then firstMatchCategory rest d
    else if kws.any (fun kw => containsSub d kw) then c
    else firstMatchCategory rest d

/-- Modelled from the spec's words, for comparison with
`firstMatchCategory`: the first category, in mapping order, whose keyword
list contains a keyword that is a substring of the description;  `'Other'`
when no category matches. -/
def specFirstCategory (table : CatTable) (d : List Char) : String :=
  ((table.find? (fun e => e.2.any (fun kw => containsSub d kw))).map
    Prod.fst).getD "Other"

/-- A transaction after categorization: `transaction['category'] = ...`. -/
structure CatTrans extends Trans where
  category : String
  deriving DecidableEq, Repr

/-- `categorize_transactions` (lines 207-225): every transaction receives
the category chosen by the nested keyword loop. -/
def categorize_transactions (table : CatTable) (ts : List Trans) :
    List CatTrans :=
  ts.map (fun t => ⟨t, firstMatchCategory table t.descr⟩)

/-- A row of `transactions.csv` as loaded by `clean_analysis.py`: the
columns `date, description, amount, category, amount_abs` written by
`analyze_spending`. -/
structure AbsTrans extends CatTrans where
  amount_abs : ℚ
  deriving DecidableEq, Repr

/-- The `(date, description, amount)` key of `drop_duplicates` in
`clean_transactions`. -/
def AbsTrans.key (r : AbsTrans) : List Char × List Char × ℚ :=
  (r.date, r.descr, r.amount)

/-- `improve_categorization` (`clean_analysis.py` lines 76-93): rewrite
the `category` column of every row by the same nested keyword loop,
with the script's enhanced table. -/
def improve_categorization (table : CatTable) (rows : List AbsTrans) :
    List AbsTrans :=
  rows.map (fun r => { r with category := firstMatchCategory table r.descr })

/-! ## Spending analysis (`analyze_spending`, `extract_pdf_data.py`
lines 227-258) -/

/-- `df['amount_abs'] = df['amount'].abs()` (line 238): each row gains the
derived absolute amount, all other fields kept. -/
def addAbs (c : CatTrans) : AbsTrans :=
  { c with amount_abs := |c.amount| }

/-- `df['amount_abs'].sum()`. -/
def sumAbs (rows : List AbsTrans) : ℚ :=
  (rows.map AbsTrans.amount_abs).sum

/-- The distinct categories of the data frame (the group keys of
`df.groupby('category')`). -/
def categoriesOf (rows : List AbsTrans) : List String :=
  (rows.map (fun r => r.category)).dedup

/-- The comparison `sort_values(ascending=False)` orders by: later entry
has the smaller (or equal) per-category sum. -/
def byAbsDesc (p q : String × ℚ) : Prop :=
  q.2 ≤ p.2

instance : DecidableRel byAbsDesc :=
  fun p q => inferInstanceAs (Decidable (q.2 ≤ p.2))

instance : IsTotal (String × ℚ) byAbsDesc :=
  ⟨fun a b => le_total b.2 a.2⟩

instance : IsTrans (String × ℚ) byAbsDesc :=
  ⟨fun _ _ _ hab hbc => le_trans hbc hab⟩

/-- `df.groupby('category')['amount_abs'].sum().sort_values(ascending=False)`
(line 246): per-category sums of absolute amounts, ordered by descending
sum (pandas' dict preserves that order in `category_breakdown`). -/
def categoryBreakdown (rows : List AbsTrans) : List (String × ℚ) :=
  List.insertionSort byAbsDesc
    ((categoriesOf rows).map
      (fun c => (c, sumAbs (rows.filter (fun r => r.category = c)))))

/-- The fields of the `analysis` dict relevant to the verified claims
(`top_transactions` and `transactions_by_category` are further read-only
aggregations of the same data frame). -/
structure Analysis where
  total_spending : ℚ
  average_transaction : ℚ
  number_of_transactions : ℕ
  category_breakdown : List (String × ℚ)
  deriving DecidableEq, Repr

/-- `analyze_spending` (lines 227-258): `None` on an empty data frame,
otherwise the statistics together with the data frame (which now carries
the `amount_abs` column). -/
def analyze_spending (ts : List CatTrans) : Option (Analysis × List AbsTrans) :=
  if ts.isEmpty then none
  else
    let df := ts.map addAbs
    some ({ total_spending := sumAbs df,
            average_transaction := sumAbs df / (df.length : ℚ),
            number_of_transactions := df.length,
            category_breakdown := categoryBreakdown df }, df)

/-! ## Cleaning pass (`clean_transactions`, `clean_analysis.py`
lines 13-34) -/

/-- The date filter `df['date'].str.contains('0/0|14/05', na=False)`:
the regex is a plain alternation of two literal bad tokens. -/
def hasBadDate (d : List Char) : Bool :=
  containsSub d ("0/0".data) || containsSub d ("14/05".data)

/-- A row surviving all three filters of `clean_transactions`: date holds
no bad token, `amount_abs` under the 100,000 ceiling, description free of
the `cid:` garbage marker. -/
def rowGood (r : AbsTrans) : Bool :=
  !hasBadDate r.date && (r.amount_abs < 100000) &&
    !containsSub r.descr ("cid:".data)

/-- `clean_transactions` (lines 13-34), after `read_csv`: the three row
filters applied in order, then
`drop_duplicates(subset=['date','description','amount'], keep='first')`. -/
def clean_transactions (rows : List AbsTrans) : List AbsTrans :=
  let r1 := rows.filter (fun r => !hasBadDate r.date)
  let r2 := r1.filter (fun r => r.amount_abs < 100000)
  let r3 := r2.filter (fun r => !containsSub r.descr ("cid:".data))
  dedupBy AbsTrans.key [] r3

/-! ## Environment-variable handling and extraction fallbacks
(`main`, `extract_pdf_data.py` lines 346-407) -/

/-- Python truthiness of an optional string: `os.getenv` yields `None`
when unset, and `not text` is also true for the empty string. -/
def pyTruthy : Option String → Bool
  | none => false
  | some s => !s.isEmpty

/-- What `main` does up to the extraction attempt. -/
inductive EnvOutcome where
  | missingPasswordExit
  | extractAttempt (path : String) (warned : Bool)
  deriving DecidableEq, Repr

/-- Lines 354-379 of `main`: `PDF_PATH` defaults to
`'your_bank_statement.pdf'`; a falsy `PDF_PASSWORD` prints the error text
and returns; a defaulted path prints a warning, is replaced by
`'bank_statement.pdf'`, and execution continues to the extraction. -/
def mainEnvCheck (pdfPathVar passwordVar : Option String) : EnvOutcome :=
  let pdf_path := pdfPathVar.getD "your_bank_statement.pdf"
  if !pyTruthy passwordVar then
    .missingPasswordExit
  else if pdf_path = "your_bank_statement.pdf" then
    .extractAttempt "bank_statement.pdf" true
  else
    .extractAttempt pdf_path false

/-- What `main` does from the extraction attempt onward. -/
inductive TextOutcome where
  | allMethodsFailedExit
  | rawTextSaved (text : String)
  | analyzed (ts : List Trans)
  deriving DecidableEq, Repr

/-- Lines 382-415 of `main`, parameterised over the two PDF libraries'
results and the parser: `extract_pdf_text`'s text if truthy, else
`debug_pdf_content`'s; if neither is truthy, print guidance and return;
otherwise parse, and with no transactions save the extracted text to
`extracted_text.txt` and return, else continue to the analysis. -/
def mainTextFlow (extractResult debugResult : Option String)
    (parse : String → List Trans) : TextOutcome :=
  let text := if pyTruthy extractResult then extractResult else debugResult
  if !pyTruthy text then
    .allMethodsFailedExit
  else
    let t := text.getD ""
    if (parse t).isEmpty then .rawTextSaved t
    else .analyzed (parse t)

/-- Does the outcome save the raw text for manual inspection? -/
def savesRawText : TextOutcome → Bool
  | .rawTextSaved _ => true
  | _ => false

/-! ## SaaS subscription-type detection (`saas_analysis.py`
lines 90-99) -/

/-- `detect_subscription_type`: uppercase the description; `USAGE` first,
then the subscription markers, else the one-time/other label. -/
def detect_subscription_type (description : List Char) : String :=
  let desc_upper := pyUpper description
  if containsSub desc_upper ("USAGE".data) then
    "按使用量計費"
  else if containsSub desc_upper ("SUBSCR".data) ||
      containsSub desc_upper ("SUBSCRIPTION".data) then
    "月度訂閱"
  else if ["PRO", "PREMIUM", "PLUS"].any
      (fun w => containsSub desc_upper w.data) then
    "月度訂閱"
  else
    "一次性/其他"

/-! ## Concrete sample data used by the witness theorems -/

/-- A small categorization table of the shape both scripts use (ordered
entries, trailing `'Other': []`). -/
def sampleTable : CatTable :=
  [("A", ["ab".data]), ("B", ["b".data]), ("Other", [])]

/-- A regex match whose amount group parses. -/
def goodMatch : List (List Char) :=
  ["05/12".data, " UBER EATS ".data, "1,250.50".data]

/-- A regex match whose amount group fails `float` (a lone dot). -/
def badMatch : List (List Char) :=
  ["05/13".data, "X".data, ".".data]

/-- The transaction produced by `goodMatch`. -/
def goodT : Trans :=
  ⟨"05/12".data, "UBER EATS".data, 2501 / 2⟩

/-- A second distinct transaction. -/
def otherT : Trans :=
  ⟨"05/13".data, "MRT".data, 3⟩

/-- A clean row that passes every filter of `clean_transactions`. -/
def rowA : AbsTrans :=
  ⟨⟨⟨"05/01".data, "CAFE X".data, 120⟩, "Food & Dining"⟩, 120⟩

/-- A row rejected by the amount ceiling. -/
def rowBigAmount : AbsTrans :=
  ⟨⟨⟨"05/02".data, "HUGE".data, 250000⟩, "Other"⟩, 250000⟩

/-- A row rejected by the `cid:` garbage marker. -/
def rowCid : AbsTrans :=
  ⟨⟨⟨"05/03".data, "(cid:123)".data, 50⟩, "Other"⟩, 50⟩

/-- A row rejected by the bad-date filter. -/
def rowBadDate : AbsTrans :=
  ⟨⟨⟨"14/05".data, "OK SHOP".data, 10⟩, "Other"⟩, 10⟩

/-- Sample CSV rows: one good row duplicated, three rejectable rows. -/
def sampleRows : List AbsTrans :=
  [rowA, rowBigAmount, rowCid, rowBadDate, rowA]

/-- Two categorized transactions (one negative amount). -/
def catA : CatTrans := ⟨⟨"05/01".data, "CAFE".data, 5⟩, "Food & Dining"⟩

/-- Second categorized sample transaction. -/
def catB : CatTrans := ⟨⟨"05/02".data, "XY".data, -3⟩, "Other"⟩

/-- A sample categorized list for the analysis claims. -/
def sampleCats : List CatTrans := [catA, catB]

/-- The analysis `analyze_spending` produces on `sampleCats`. -/
def sampleAnalysis : Analysis :=
  ⟨8, 4, 2, [("Food & Dining", 5), ("Other", 3)]⟩

/-- The data frame `analyze_spending` produces on `sampleCats`. -/
def sampleDf : List AbsTrans := [⟨catA, 5⟩, ⟨catB, 3⟩]

/-- A parser stub that finds no transactions. -/
def emptyParse : String → List Trans := fun _ => []

/-! ## Helper lemmas -/

/-- How often a key occurs in the output of `dedupBy`: never if already
seen, exactly once if present and unseen, never otherwise. -/
theorem dedupBy_countP {α β : Type} [DecidableEq β] (key : α → β)
    (k : β) : ∀ (seen : List β) (ts : List α),
    (dedupBy key seen ts).countP (fun t => key t = k) =
      if k ∈ seen then 0 else if k ∈ ts.map key then 1 else 0
  | _, [] => by simp [dedupBy]
  | seen, t :: ts => by
    rw [dedupBy]
    by_cases hseen : key t ∈ seen
    · rw [if_pos hseen, dedupBy_countP key k seen ts]
      by_cases hk : k ∈ seen
      · simp [hk]
      · have : k ∈ List.map key (t :: ts) ↔ k ∈ List.map key ts := by
          simp only [List.map_cons, List.mem_cons]
          constructor
          · rintro (rfl | h)
            · exact absurd hseen hk
            · exact h
          · exact Or.inr
        simp only [if_neg hk]
        rw [if_congr this rfl rfl]
    · rw [if_neg hseen, List.countP_cons,
        dedupBy_countP key k (key t :: seen) ts]
      by_cases hk : k ∈ seen
      · have hk' : k ∈ key t :: seen := List.mem_cons_of_mem _ hk
        have hne : ¬ (key t = k) := fun h => hseen (h ▸ hk)
        simp [hk, hk', hne]
      · by_cases het : key t = k
        · subst het
          simp [hseen, hk]
        · have hk' : k ∉ key t :: seen := by
            simp only [List.mem_cons]
            rintro (h | h)
            · exact het h.symm
            · exact hk h
          simp only [if_neg hk, if_neg hk', decide_eq_false het]
          simp only [List.map_cons, List.mem_cons]
          have : (k = key t ∨ k ∈ List.map key ts) ↔ k ∈ List.map key ts := by
            constructor
            · rintro (rfl | h)
              · exact absurd rfl het
              · exact h
            · exact Or.inr
          rw [if_congr this rfl rfl]
          simp

/-- `dedupBy` keeps the first record carrying each unseen key: `find?` on
the output agrees with `find?` on the input. -/
theorem dedupBy_find? {α β : Type} [DecidableEq β] (key : α → β)
    (k : β) : ∀ (seen : List β) (ts : List α), k ∉ seen →
    (dedupBy key seen ts).find? (fun t => key t = k) =
      ts.find? (fun t => key t = k)
  | _, [], _ => by simp [dedupBy]
  | seen, t :: ts, hk => by
    rw [dedupBy]
    by_cases hseen : key t ∈ seen
    · have hne : ¬ (key t = k) := fun h => hk (h ▸ hseen)
      rw [if_pos hseen, dedupBy_find? key k seen ts hk, List.find?_cons]
      simp [hne]
    · rw [if_neg hseen]
      by_cases het : key t = k
      · simp [List.find?_cons, het]
      · have hk' : k ∉ key t :: seen := by
          simp only [List.mem_cons]
          rintro (h | h)
          · exact het h.symm
          · exact hk h
        rw [List.find?_cons, List.find?_cons]
        simp only [decide_eq_false het]
        exact dedupBy_find? key k (key t :: seen) ts hk'

/-- Every record in the output of `dedupBy` comes from the input. -/
theorem dedupBy_subset {α β : Type} [DecidableEq β] (key : α → β) :
    ∀ (seen : List β) (ts : List α) (t : α),
    t ∈ dedupBy key seen ts → t ∈ ts
  | _, [], _, h => by simp [dedupBy] at h
  | seen, u :: ts, t, h => by
    rw [dedupBy] at h
    by_cases hseen : key u ∈ seen
    · rw [if_pos hseen] at h
      exact List.mem_cons_of_mem _ (dedupBy_subset key seen ts t h)
    · rw [if_neg hseen] at h
      rcases List.mem_cons.mp h with h | h
      · exact h ▸ List.mem_cons_self _ _
      · exact List.mem_cons_of_mem _ (dedupBy_subset key _ ts t h)

theorem parseLoop_eq (ms : List (List (List Char))) :
    ∀ acc, parseLoop acc ms = acc ++ ms.filterMap processMatch := by
  induction ms with
  | nil => intro acc; simp [parseLoop]
  | cons m ms ih =>
    intro acc
    cases h : processMatch m with
    | some t => simp [parseLoop, h, ih]
    | none => simp [parseLoop, h, ih]

theorem parse_foldl_eq (mls : List (List (List (List Char)))) :
    ∀ acc, mls.foldl parseLoop acc =
      acc ++ (mls.map (fun ml => ml.filterMap processMatch)).flatten := by
  induction mls with
  | nil => intro acc; simp
  | cons ml mls ih =>
    intro acc
    rw [List.foldl_cons, ih, parseLoop_eq]
    simp

/-- `parse_transactions` is exactly: collect the successfully processed
matches of every pattern, in order, then deduplicate. -/
theorem parse_transactions_eq (mls : List (List (List (List Char)))) :
    parse_transactions mls =
      dedupBy Trans.key []
        ((mls.map (fun ml => ml.filterMap processMatch)).flatten) := by
  rw [parse_transactions, parse_foldl_eq]
  rfl

theorem parseFloat_nonneg {s : List Char} {q : ℚ}
    (h : parseFloat s = some q) : 0 ≤ q := by
  rw [parseFloat] at h
  by_cases hc : (s.all (fun c => c.isDigit || c = '.') &&
      s.any (fun c => c.isDigit) && s.count '.' ≤ 1) = true
  · rw [if_pos hc] at h
    obtain rfl : _ = q := Option.some.inj h
    have h1 : (0 : ℚ) ≤ (digitsVal (s.takeWhile (fun c => c ≠ '.')) : ℚ) :=
      Nat.cast_nonneg _
    have h2 : (0 : ℚ) ≤
        (digitsVal ((s.dropWhile (fun c => c ≠ '.')).drop 1) : ℚ) /
          (10 : ℚ) ^ ((s.dropWhile (fun c => c ≠ '.')).drop 1).length :=
      div_nonneg (Nat.cast_nonneg _) (by positivity)
    exact add_nonneg h1 h2
  · rw [if_neg hc] at h
    exact absurd h (by simp)

theorem processMatch_nonneg {m : List (List Char)} {t : Trans}
    (h : processMatch m = some t) : 0 ≤ t.amount := by
  rw [processMatch] at h
  by_cases hl : 3 ≤ m.length
  · rw [if_pos hl] at h
    by_cases he : (cleanAmount (pyStrip (m.getD (m.length - 1) []))).isEmpty
    · rw [if_pos he] at h
      exact absurd h (by simp)
    · rw [if_neg he] at h
      cases hp : parseFloat (removeCommas
          (cleanAmount (pyStrip (m.getD (m.length - 1) [])))) with
      | some a =>
        rw [hp] at h
        obtain rfl : _ = t := Option.some.inj h
        exact parseFloat_nonneg hp
      | none => rw [hp] at h; exact absurd h (by simp)
  · rw [if_neg hl] at h
    exact absurd h (by simp)

theorem firstMatch_eq_spec (table : CatTable)
    (h : ∀ e ∈ table, e.1 = "Other" → e.2 = []) (d : List Char) :
    firstMatchCategory table d = specFirstCategory table d := by
  induction table with
  | nil => rfl
  | cons e rest ih =>
    obtain ⟨c, kws⟩ := e
    have hrest : ∀ e ∈ rest, e.1 = "Other" → e.2 = [] :=
      fun e he => h e (List.mem_cons_of_mem _ he)
    by_cases hc : c = "Other"
    · subst hc
      have hkws : kws = [] := h _ (List.mem_cons_self _ _) rfl
      subst hkws
      rw [firstMatchCategory, if_pos rfl, ih hrest,
        specFirstCategory, specFirstCategory, List.find?_cons]
      simp
    · rw [firstMatchCategory, if_neg hc, specFirstCategory, List.find?_cons]
      by_cases hm : kws.any (fun kw => containsSub d kw)
      · simp [hm]
      · rw [if_neg hm, ih hrest, specFirstCategory]
        have hm' : (kws.any fun kw => containsSub d kw) = false := by
          simpa using hm
        simp [hm']

theorem sum_map_if_zero (k : String) (a : ℚ) :
    ∀ cs : List String, k ∉ cs →
    (cs.map (fun c => if k = c then a else 0)).sum = 0
  | [], _ => rfl
  | c :: cs, h => by
    have hkc : ¬ k = c := fun hh => h (hh ▸ List.mem_cons_self _ _)
    have hrest : k ∉ cs := fun hh => h (List.mem_cons_of_mem _ hh)
    simp [hkc, sum_map_if_zero k a cs hrest]

theorem sum_map_if_single (k : String) (a : ℚ) :
    ∀ cs : List String, cs.Nodup → k ∈ cs →
    (cs.map (fun c => if k = c then a else 0)).sum = a
  | [], _, hm => absurd hm (List.not_mem_nil _)
  | c :: cs, hnd, hm => by
    rcases List.mem_cons.mp hm with rfl | hm'
    · have : k ∉ cs := (List.nodup_cons.mp hnd).1
      simp [sum_map_if_zero k a cs this]
    · have hkc : ¬ k = c := by
        rintro rfl
        exact (List.nodup_cons.mp hnd).1 hm'
      simp [hkc, sum_map_if_single k a cs (List.nodup_cons.mp hnd).2 hm']

theorem sumAbs_cons (r : AbsTrans) (rows : List AbsTrans) :
    sumAbs (r :: rows) = r.amount_abs + sumAbs rows := by
  simp [sumAbs]

theorem sumAbs_partition :
    ∀ (rows : List AbsTrans) (cs : List String), cs.Nodup →
    (∀ r ∈ rows, r.category ∈ cs) →
    (cs.map (fun c => sumAbs (rows.filter (fun r => r.category = c)))).sum =
      sumAbs rows
  | [], cs, _, _ => by
    apply List.sum_eq_zero
    intro x hx
    obtain ⟨c, _, rfl⟩ := List.mem_map.mp hx
    simp [sumAbs]
  | r :: rows, cs, hnd, hall => by
    have hmem : r.category ∈ cs := hall r (List.mem_cons_self _ _)
    have hfun : ∀ c ∈ cs,
        sumAbs ((r :: rows).filter (fun x => x.category = c)) =
          (if r.category = c then r.amount_abs else 0) +
            sumAbs (rows.filter (fun x => x.category = c)) := by
      intro c _
      by_cases hc : r.category = c
      · simp [List.filter_cons, hc, sumAbs_cons]
      · simp [List.filter_cons, hc]
    rw [List.map_congr_left hfun, List.sum_map_add,
      sum_map_if_single r.category r.amount_abs cs hnd hmem,
      sumAbs_partition rows cs hnd
        (fun x hx => hall x (List.mem_cons_of_mem _ hx)),
      sumAbs_cons]

/-- The values of `categoryBreakdown` sum to the total of the
`amount_abs` column. -/
theorem categoryBreakdown_sum (rows : List AbsTrans) :
    ((categoryBreakdown rows).map Prod.snd).sum = sumAbs rows := by
  rw [categoryBreakdown]
  have hperm := List.perm_insertionSort byAbsDesc
    ((categoriesOf rows).map
      (fun c => (c, sumAbs (rows.filter (fun r => r.category = c)))))
  rw [(hperm.map Prod.snd).sum_eq, List.map_map]
  have : (Prod.snd ∘ fun c =>
      ((c, sumAbs (rows.filter (fun r => r.category = c))) : String × ℚ)) =
      fun c => sumAbs (rows.filter (fun r => r.category = c)) := rfl
  rw [this]
  exact sumAbs_partition rows (categoriesOf rows)
    (List.nodup_dedup _)
    (fun r hr => List.mem_dedup.mpr (List.mem_map_of_mem _ hr))

/-- The three filters of `clean_transactions` compose into `rowGood`. -/
theorem clean_transactions_eq (rows : List AbsTrans) :
    clean_transactions rows = dedupBy AbsTrans.key [] (rows.filter rowGood) := by
  rw [clean_transactions]
  congr 1
  rw [List.filter_filter, List.filter_filter]
  apply List.filter_congr
  intro r _
  by_cases h : r.amount_abs < 100000 <;>
    cases hbd : hasBadDate r.date <;>
    cases hcid : containsSub r.descr ("cid:".data) <;>
    simp [rowGood, h, hbd, hcid]

/-! ## Claim theorems -/

/-- C1: for every keyword table of the scripts' shape (ordered entries,
`'Other'` entries carrying no keywords, as both fixed tables do),
categorization is deterministic and first-match-wins: the nested loop
computes exactly the first category in mapping order one of whose keywords
is a substring of the description, `'Other'` when no keyword of any
category matches, and both `categorize_transactions` and
`improve_categorization` assign that category to every transaction. -/
theorem categorization_first_match_wins (table : CatTable)
    (hOther : ∀ e ∈ table, e.1 = "Other" → e.2 = []) :
    (∀ d, firstMatchCategory table d = specFirstCategory table d) ∧
    (∀ d, (∀ e ∈ table, ∀ kw ∈ e.2, containsSub d kw = false) →
      firstMatchCategory table d = "Other") ∧
    (∀ ts, categorize_transactions table ts =
      ts.map (fun t => ⟨t, specFirstCategory table t.descr⟩)) ∧
    (∀ rows, improve_categorization table rows =
      rows.map (fun r => { r with category := specFirstCategory table r.descr })) := by
  refine ⟨firstMatch_eq_spec table hOther, ?_, ?_, ?_⟩
  · intro d hnone
    rw [firstMatch_eq_spec table hOther d, specFirstCategory]
    have hfind : table.find?
        (fun e => e.2.any (fun kw => containsSub d kw)) = none := by
      rw [List.find?_eq_none]
      intro e he hp
      obtain ⟨kw, hkw, hcw⟩ := List.any_eq_true.mp hp
      rw [hnone e he kw hkw] at hcw
      exact absurd hcw (by simp)
    rw [hfind]
    rfl
  · intro ts
    rw [categorize_transactions]
    apply List.map_congr_left
    intro t _
    exact congrArg (CatTrans.mk t) (firstMatch_eq_spec table hOther t.descr)
  · intro rows
    rw [improve_categorization]
    apply List.map_congr_left
    intro r _
    exact congrArg (fun x => { r with category := x })
      (firstMatch_eq_spec table hOther r.descr)

/-- Witness for C1 at a concrete table and concrete descriptions. -/
theorem categorization_first_match_wins_witness :
    (∀ e ∈ sampleTable, e.1 = "Other" → e.2 = []) ∧
    firstMatchCategory sampleTable ("zab".data) =
      specFirstCategory sampleTable ("zab".data) ∧
    firstMatchCategory sampleTable ("zzz".data) = "Other" :=
  ⟨by decide,
   (categorization_first_match_wins sampleTable (by decide)).1 ("zab".data),
   (categorization_first_match_wins sampleTable (by decide)).2.1 ("zzz".data)
     (by decide)⟩

/-- C2: deduplication keyed on the `(date, description, amount)` triple —
the dedup loop of `parse_transactions` and the `drop_duplicates` step of
`clean_transactions` — keeps every triple present in the input exactly
once, retaining the first occurrence; records are merged only when the
triple is identical. -/
theorem dedup_keeps_every_unique_triple (ts : List Trans)
    (rows : List AbsTrans) (k : List Char × List Char × ℚ) :
    (k ∈ ts.map Trans.key →
      (dedupBy Trans.key [] ts).countP (fun t => Trans.key t = k) = 1 ∧
      (dedupBy Trans.key [] ts).find? (fun t => Trans.key t = k) =
        ts.find? (fun t => Trans.key t = k)) ∧
    (k ∈ rows.map AbsTrans.key →
      (dedupBy AbsTrans.key [] rows).countP (fun r => AbsTrans.key r = k) = 1 ∧
      (dedupBy AbsTrans.key [] rows).find? (fun r => AbsTrans.key r = k) =
        rows.find? (fun r => AbsTrans.key r = k)) := by
  constructor
  · intro hk
    refine ⟨?_, dedupBy_find? Trans.key k [] ts (List.not_mem_nil _)⟩
    rw [dedupBy_countP Trans.key k [] ts]
    simp [hk]
  · intro hk
    refine ⟨?_, dedupBy_find? AbsTrans.key k [] rows (List.not_mem_nil _)⟩
    rw [dedupBy_countP AbsTrans.key k [] rows]
    simp [hk]

/-- Witness for C2 on concrete duplicate-bearing lists. -/
theorem dedup_keeps_every_unique_triple_witness :
    (Trans.key goodT ∈ ([goodT, otherT, goodT].map Trans.key) ∧
      (dedupBy Trans.key [] [goodT, otherT, goodT]).countP
        (fun t => Trans.key t = Trans.key goodT) = 1) ∧
    (AbsTrans.key rowA ∈ (sampleRows.map AbsTrans.key) ∧
      (dedupBy AbsTrans.key [] sampleRows).countP
        (fun r => AbsTrans.key r = AbsTrans.key rowA) = 1) :=
  ⟨⟨by decide,
    ((dedup_keeps_every_unique_triple [goodT, otherT, goodT] sampleRows
      (Trans.key goodT)).1 (by decide)).1⟩,
   ⟨by decide,
    ((dedup_keeps_every_unique_triple [goodT, otherT, goodT] sampleRows
      (AbsTrans.key rowA)).2 (by decide)).1⟩⟩

/-- C3: every row surviving `clean_transactions` passed the three filters
(no bad date token, absolute amount strictly below 100,000, no `cid:`
marker), and every filter-passing row that is the first good occurrence of
its triple survives. -/
theorem cleaning_filters_correct (rows : List AbsTrans) (r : AbsTrans) :
    (r ∈ clean_transactions rows →
      hasBadDate r.date = false ∧
      r.amount_abs < 100000 ∧
      (r.amount_abs = |r.amount| → ¬ 100000 ≤ |r.amount|) ∧
      containsSub r.descr ("cid:".data) = false) ∧
    (r ∈ rows → rowGood r = true →
      (rows.filter rowGood).find? (fun x => AbsTrans.key x = AbsTrans.key r) =
        some r →
      r ∈ clean_transactions rows) := by
  constructor
  · intro hr
    rw [clean_transactions_eq] at hr
    have hf := dedupBy_subset AbsTrans.key [] _ r hr
    have hg := (List.mem_filter.mp hf).2
    simp only [rowGood, Bool.and_eq_true, Bool.not_eq_true',
      decide_eq_true_eq] at hg
    obtain ⟨⟨h1, h2⟩, h3⟩ := hg
    refine ⟨h1, h2, ?_, h3⟩
    intro habs
    rw [← habs]
    exact not_le.mpr h2
  · intro _ _ hfind
    rw [clean_transactions_eq]
    apply List.mem_of_find?_eq_some
    rw [dedupBy_find? AbsTrans.key (AbsTrans.key r) [] _ (List.not_mem_nil _)]
    exact hfind

/-- Witness for C3 on a concrete row set. -/
theorem cleaning_filters_correct_witness :
    rowA ∈ clean_transactions sampleRows ∧
    hasBadDate rowA.date = false ∧
    ¬ 100000 ≤ |rowA.amount| :=
  ⟨(cleaning_filters_correct sampleRows rowA).2 (by decide) (by decide)
     (by decide),
   ((cleaning_filters_correct sampleRows rowA).1 (by decide)).1,
   ((cleaning_filters_correct sampleRows rowA).1 (by decide)).2.2.1
     (by decide)⟩

/-- C4: `parse_transactions` collects, in pattern order, every
successfully processed match of every pattern (patterns are not mutually
exclusive; the union is then deduplicated), and a match whose amount fails
to parse is skipped individually without discarding the other matches. -/
theorem parse_collects_every_pattern (mls : List (List (List (List Char)))) :
    parse_transactions mls =
      dedupBy Trans.key []
        ((mls.map (fun ml => ml.filterMap processMatch)).flatten) ∧
    (∀ pre post bad, processMatch bad = none →
      (pre ++ bad :: post).filterMap processMatch =
        (pre ++ post).filterMap processMatch) := by
  refine ⟨parse_transactions_eq mls, ?_⟩
  intro pre post bad hb
  rw [List.filterMap_append, List.filterMap_append, List.filterMap_cons, hb]

/-- Witness for C4: a failing match between good ones changes nothing. -/
theorem parse_collects_every_pattern_witness :
    processMatch badMatch = none ∧
    ([goodMatch] ++ badMatch :: []).filterMap processMatch =
      ([goodMatch] ++ []).filterMap processMatch :=
  ⟨by decide,
   (parse_collects_every_pattern [[goodMatch, badMatch]]).2 [goodMatch] []
     badMatch (by decide)⟩

/-- C5 counterexample: with `PDF_PASSWORD` set but `PDF_PATH` missing,
`main` does not exit early — it proceeds to the extraction attempt (after
a warning, with the default path), refuting the claim for `PDF_PATH`. -/
theorem missing_path_still_extracts :
    mainEnvCheck none (some "secret") =
      EnvOutcome.extractAttempt "bank_statement.pdf" true ∧
    mainEnvCheck none (some "secret") ≠ EnvOutcome.missingPasswordExit := by
  decide

/-- C5 (amended): only a missing (or empty) `PDF_PASSWORD` causes the
early explanatory exit before extraction; a missing `PDF_PATH` merely
prints a warning and the run proceeds to the extraction attempt with the
default path `bank_statement.pdf`. -/
theorem env_check_early_exit (pathVar pwVar : Option String) :
    (pyTruthy pwVar = false →
      mainEnvCheck pathVar pwVar = EnvOutcome.missingPasswordExit) ∧
    (pyTruthy pwVar = true → pathVar = none →
      mainEnvCheck pathVar pwVar =
        EnvOutcome.extractAttempt "bank_statement.pdf" true) := by
  constructor
  · intro h
    simp [mainEnvCheck, h]
  · intro h hp
    subst hp
    simp [mainEnvCheck, h]

/-- Witness for C5's amended claim on concrete environments. -/
theorem env_check_early_exit_witness :
    mainEnvCheck (some "x.pdf") none = EnvOutcome.missingPasswordExit ∧
    mainEnvCheck none (some "pw") =
      EnvOutcome.extractAttempt "bank_statement.pdf" true :=
  ⟨(env_check_early_exit (some "x.pdf") none).1 (by decide),
   (env_check_early_exit none (some "pw")).2 (by decide) rfl⟩

/-- C6 counterexample: when both extraction methods yield no text, `main`
exits with printed guidance and saves nothing — the raw-text dump claimed
as the final fallback does not happen on extraction failure. -/
theorem extraction_failure_saves_nothing :
    mainTextFlow none none emptyParse = TextOutcome.allMethodsFailedExit ∧
    savesRawText (mainTextFlow none none emptyParse) = false := by
  decide

/-- C6 (amended): when `extract_pdf_text` yields no text, `main` falls
back to the alternate library `debug_pdf_content`; when that too yields no
text, `main` prints guidance and returns without saving any file; the raw
text is saved to `extracted_text.txt` for manual inspection only when
extraction succeeded but parsing found no transactions. -/
theorem extraction_fallback_order (e d : Option String)
    (p : String → List Trans) (t : String) :
    (pyTruthy e = false → pyTruthy d = false →
      mainTextFlow e d p = TextOutcome.allMethodsFailedExit) ∧
    (pyTruthy e = false → pyTruthy d = true →
      mainTextFlow e d p =
        (if (p (d.getD "")).isEmpty then TextOutcome.rawTextSaved (d.getD "")
         else TextOutcome.analyzed (p (d.getD "")))) ∧
    (pyTruthy (some t) = true → p t = [] →
      mainTextFlow (some t) d p = TextOutcome.rawTextSaved t) := by
  refine ⟨?_, ?_, ?_⟩
  · intro he hd
    simp [mainTextFlow, he, hd]
  · intro he hd
    simp [mainTextFlow, he, hd]
  · intro ht hp
    simp [mainTextFlow, ht, hp]

/-- Witness for C6's amended claim on concrete extraction results. -/
theorem extraction_fallback_order_witness :
    mainTextFlow none (some "TEXT") emptyParse =
      TextOutcome.rawTextSaved "TEXT" ∧
    mainTextFlow (some "TEXT") none emptyParse =
      TextOutcome.rawTextSaved "TEXT" :=
  ⟨(extraction_fallback_order none (some "TEXT") emptyParse "TEXT").2.1
     (by decide) (by decide),
   (extraction_fallback_order (some "TEXT") none emptyParse "TEXT").2.2
     (by decide) rfl⟩

/-- C7: categorization only adds the category — the `(date, description,
amount)` content of every transaction is unchanged — and the later
analysis step only adds the derived `amount_abs` column, leaving every
categorized record's fields intact. -/
theorem categorization_never_mutates (table : CatTable) (ts : List Trans)
    (cs : List CatTrans) :
    (categorize_transactions table ts).map CatTrans.toTrans = ts ∧
    (cs.map addAbs).map AbsTrans.toCatTrans = cs ∧
    (∀ a df, analyze_spending cs = some (a, df) →
      df.map AbsTrans.toCatTrans = cs) := by
  refine ⟨?_, ?_, ?_⟩
  · rw [categorize_transactions, List.map_map]
    have h : (CatTrans.toTrans ∘ fun t =>
        (⟨t, firstMatchCategory table t.descr⟩ : CatTrans)) = id := rfl
    rw [h, List.map_id]
  · rw [List.map_map]
    have h : (AbsTrans.toCatTrans ∘ addAbs) = id := rfl
    rw [h, List.map_id]
  · intro a df hsome
    rw [analyze_spending] at hsome
    by_cases hcs : cs.isEmpty
    · rw [if_pos hcs] at hsome
      exact absurd hsome (by simp)
    · rw [if_neg hcs] at hsome
      have hdf : cs.map addAbs = df := congrArg Prod.snd (Option.some.inj hsome)
      rw [← hdf, List.map_map]
      have h : (AbsTrans.toCatTrans ∘ addAbs) = id := rfl
      rw [h, List.map_id]

/-- Witness for C7: the analysis data frame of a concrete run carries the
categorized records unchanged. -/
theorem categorization_never_mutates_witness :
    sampleDf.map AbsTrans.toCatTrans = sampleCats :=
  (categorization_never_mutates sampleTable [goodT] sampleCats).2.2
    sampleAnalysis sampleDf (by decide)

/-- C8: for every non-empty categorized list, `analyze_spending`'s
`total_spending` equals the sum of the absolute amounts, equals the sum of
the `category_breakdown` values (the per-category group sums partition the
total), and `category_breakdown` is ordered by descending amount. -/
theorem analysis_totals_consistent (ts : List CatTrans) (a : Analysis)
    (df : List AbsTrans) (h : analyze_spending ts = some (a, df)) :
    a.total_spending = (ts.map (fun t => |t.amount|)).sum ∧
    a.total_spending = (a.category_breakdown.map Prod.snd).sum ∧
    List.Sorted byAbsDesc a.category_breakdown := by
  rw [analyze_spending] at h
  by_cases he : ts.isEmpty
  · rw [if_pos he] at h
    exact absurd h (by simp)
  · rw [if_neg he] at h
    injection h with h'
    injection h' with ha hdf
    subst ha
    subst hdf
    refine ⟨?_, ?_, ?_⟩
    · show sumAbs (ts.map addAbs) = (ts.map (fun t => |t.amount|)).sum
      rw [sumAbs, List.map_map]
      rfl
    · show sumAbs (ts.map addAbs) =
        ((categoryBreakdown (ts.map addAbs)).map Prod.snd).sum
      exact (categoryBreakdown_sum _).symm
    · show List.Sorted byAbsDesc (categoryBreakdown (ts.map addAbs))
      rw [categoryBreakdown]
      exact List.sorted_insertionSort byAbsDesc _

/-- Witness for C8 on a concrete categorized list. -/
theorem analysis_totals_consistent_witness :
    sampleAnalysis.total_spending =
      (sampleCats.map (fun t => |t.amount|)).sum ∧
    sampleAnalysis.total_spending =
      (sampleAnalysis.category_breakdown.map Prod.snd).sum ∧
    List.Sorted byAbsDesc sampleAnalysis.category_breakdown :=
  analysis_totals_consistent sampleCats sampleAnalysis sampleDf (by decide)

/-- C9: every transaction returned by `parse_transactions` carries a
non-negative amount — the amount cleanup removes any minus sign (and any
character other than digits, commas and dots) before `float`
conversion. -/
theorem parsed_amounts_nonneg (mls : List (List (List (List Char))))
    (t : Trans) (h : t ∈ parse_transactions mls) : 0 ≤ t.amount := by
  rw [parse_transactions_eq] at h
  have h2 := dedupBy_subset Trans.key [] _ t h
  obtain ⟨l, hl, htl⟩ := List.mem_flatten.mp h2
  obtain ⟨ml, _, rfl⟩ := List.mem_map.mp hl
  obtain ⟨m, _, hpm⟩ := List.mem_filterMap.mp htl
  exact processMatch_nonneg hpm

/-- Witness for C9: a concrete parsed transaction with its non-negative
amount. -/
theorem parsed_amounts_nonneg_witness :
    goodT ∈ parse_transactions [[goodMatch, badMatch]] ∧ 0 ≤ goodT.amount :=
  ⟨by decide,
   parsed_amounts_nonneg [[goodMatch, badMatch]] goodT (by decide)⟩

/-- C10: `detect_subscription_type` is total with exactly three possible
labels: the usage-based label whenever the uppercased description contains
`USAGE` (taking precedence over everything else), otherwise the monthly
label when it contains `SUBSCR`, `SUBSCRIPTION`, `PRO`, `PREMIUM` or
`PLUS`, otherwise the one-time/other label. -/
theorem detect_subscription_type_spec (d : List Char) :
    (detect_subscription_type d = "按使用量計費" ∨
     detect_subscription_type d = "月度訂閱" ∨
     detect_subscription_type d = "一次性/其他") ∧
    (containsSub (pyUpper d) ("USAGE".data) = true →
      detect_subscription_type d = "按使用量計費") ∧
    (containsSub (pyUpper d) ("USAGE".data) = false →
      (containsSub (pyUpper d) ("SUBSCR".data) = true ∨
       containsSub (pyUpper d) ("SUBSCRIPTION".data) = true ∨
       containsSub (pyUpper d) ("PRO".data) = true ∨
       containsSub (pyUpper d) ("PREMIUM".data) = true ∨
       containsSub (pyUpper d) ("PLUS".data) = true) →
      detect_subscription_type d = "月度訂閱") ∧
    (containsSub (pyUpper d) ("USAGE".data) = false →
      containsSub (pyUpper d) ("SUBSCR".data) = false →
      containsSub (pyUpper d) ("SUBSCRIPTION".data) = false →
      containsSub (pyUpper d) ("PRO".data) = false →
      containsSub (pyUpper d) ("PREMIUM".data) = false →
      containsSub (pyUpper d) ("PLUS".data) = false →
      detect_subscription_type d = "一次性/其他") := by
  refine ⟨?_, ?_, ?_, ?_⟩
  · rw [detect_subscription_type]
    split
    · exact Or.inl rfl
    · split
      · exact Or.inr (Or.inl rfl)
      · split
        · exact Or.inr (Or.inl rfl)
        · exact Or.inr (Or.inr rfl)
  · intro h
    simp [detect_subscription_type, h]
  · intro h1 hcase
    rcases hcase with h | h | h | h | h <;>
      by_cases hab : (containsSub (pyUpper d) ("SUBSCR".data) ||
          containsSub (pyUpper d) ("SUBSCRIPTION".data)) = true <;>
      simp_all [detect_subscription_type, List.any_cons, List.any_nil]
  · intro h1 h2 h3 h4 h5 h6
    simp [detect_subscription_type, h1, h2, h3, h4, h5, h6,
      List.any_cons, List.any_nil]

/-- Witness for C10 on three concrete descriptions, one per label. -/
theorem detect_subscription_type_spec_witness :
    detect_subscription_type ("Cursor usage fee".data) = "按使用量計費" ∧
    detect_subscription_type ("ADOBE SUBSCR".data) = "月度訂閱" ∧
    detect_subscription_type ("GANDI DOMAIN".data) = "一次性/其他" :=
  ⟨(detect_subscription_type_spec ("Cursor usage fee".data)).2.1 (by decide),
   (detect_subscription_type_spec ("ADOBE SUBSCR".data)).2.2.1 (by decide)
     (Or.inl (by decide)),
   (detect_subscription_type_spec ("GANDI DOMAIN".data)).2.2.2 (by decide)
     (by decide) (by decide) (by decide) (by decide) (by decide)⟩

end CreditCard
